import Mathlib

/-!
Shallow embedding of the Lending & Inventory Consistency Engine of the
School-Libray-Management repository (`app/models.py`, `app/views/lending.py`,
`app/views/books.py`, `app/views/system.py`, `app/views/stats.py`).

Conventions:
* datetimes are modelled as integer seconds (`Int` in stored records,
  `Nat` inside the test-data generator, whose values are nonnegative);
  a Python `timedelta(days = d)` is `d * 86400` seconds and `.date()` is
  division by 86400;
* the relational tables are lists kept in insertion (primary-key) order,
  so SQLAlchemy `.first()` is `List.find?` and mutation of the row object
  returned by a query is an update of the first matching list entry;
* the randomness consumed by `random.choice`, `random.randint`,
  `random.random() <= rate` and `order_by(func.random()).first()` is
  modelled by explicit oracle parameters, so theorems quantify over every
  possible random outcome;
* only the columns the lending engine reads or writes are embedded.
-/

namespace Library

/-- `books` table (`app/models.py`, class `Book`), restricted to the columns
used by the lending engine. -/
structure Book where
  id : Nat
  isbn : String
  name : String
  amount : Int
  lend_amount : Int
  is_deleted : Bool
  deriving Repr, DecidableEq

/-- `readers` table (`app/models.py`, class `Reader`). -/
structure Reader where
  id : Nat
  card_no : String
  is_deleted : Bool
  deriving Repr, DecidableEq

/-- `lends` table (`app/models.py`, class `Lend`).  The operator columns are
declared by their use in `app/views/lending.py` / `app/views/system.py`
(`borrow_operator_id`, `return_operator_id`). -/
structure Lend where
  id : Nat
  book_id : Nat
  reader_id : Nat
  amount : Int
  due_date : Int
  status : String
  created_at : Int
  borrow_operator_id : Option Nat
  return_operator_id : Option Nat
  is_deleted : Bool
  deriving Repr, DecidableEq

/-- `returns` table (`app/models.py`, class `ReturnRecord`); `operator_id`
is declared by its use in `app/views/system.py`. -/
structure ReturnRecord where
  id : Nat
  lend_id : Nat
  amount : Int
  operator_id : Option Nat
  created_at : Int
  is_deleted : Bool
  deriving Repr, DecidableEq

/-- The relational store. `next_book_id` / `next_lend_id` / `next_return_id`
model the autoincrementing primary keys. -/
structure LibState where
  books : List Book
  readers : List Reader
  lends : List Lend
  returns : List ReturnRecord
  next_book_id : Nat
  next_lend_id : Nat
  next_return_id : Nat
  deriving Repr, DecidableEq

/-- `Book.available_amount` (`app/models.py`): `max(amount - lend_amount, 0)`. -/
def available_amount (b : Book) : Int :=
  max (b.amount - b.lend_amount) 0

/-- `find_book_by_isbn` (`app/models.py`):
`Book.query.filter_by(isbn=isbn, is_deleted=False).first()`. -/
def bookMatches (isbn : String) (b : Book) : Bool :=
  b.isbn == isbn && !b.is_deleted

def find_book_by_isbn (s : LibState) (isbn : String) : Option Book :=
  s.books.find? (bookMatches isbn)

/-- `find_reader_by_card` (`app/models.py`). -/
def find_reader_by_card (s : LibState) (card : String) : Option Reader :=
  s.readers.find? (fun r => r.card_no == card && !r.is_deleted)

/-! ### List update helper

An ORM query returns a row object and the handler mutates it in place: in
the list model this updates the first entry matching the query predicate. -/

def updateFirst (p : α → Bool) (f : α → α) : List α → List α
  | [] => []
  | x :: xs => if p x then f x :: xs else x :: updateFirst p f xs

/-! ### Lending workflow (`app/views/lending.py`) -/

inductive BorrowResult
  | readerNotFound
  | bookNotFound
  | insufficientStock
  | success (lend_id : Nat)
  deriving Repr, DecidableEq

/-- `borrow` POST handler (`app/views/lending.py`).  `amount` and `due_days`
are the parsed form integers, `now` is `datetime.utcnow()` and `operator` the
logged-in user's id. -/
def borrow (s : LibState) (card_no isbn : String) (amount due_days now : Int)
    (operator : Nat) : BorrowResult × LibState :=
  match find_reader_by_card s card_no with
  | none => (.readerNotFound, s)
  | some reader =>
    match find_book_by_isbn s isbn with
    | none => (.bookNotFound, s)
    | some book =>
      if available_amount book < amount then (.insufficientStock, s)
      else
        let lend : Lend :=
          { id := s.next_lend_id
            book_id := book.id
            reader_id := reader.id
            amount := amount
            due_date := now + due_days * 86400
            status := "lent"
            created_at := now
            borrow_operator_id := some operator
            return_operator_id := none
            is_deleted := false }
        (.success s.next_lend_id,
          { s with
              books := updateFirst (bookMatches isbn)
                (fun b => { b with lend_amount := b.lend_amount + amount }) s.books
              lends := s.lends ++ [lend]
              next_lend_id := s.next_lend_id + 1 })

/-- Predicate of the outstanding-loan query in `return_book`:
`filter_by(reader=reader, book=book, status="lent", is_deleted=False)`. -/
def outstandingFor (reader : Reader) (book : Book) (l : Lend) : Bool :=
  l.reader_id == reader.id && l.book_id == book.id &&
    l.status == "lent" && !l.is_deleted

/-- `.order_by(Lend.created_at.asc()).first()`: the first list entry among
those with minimal `created_at` (a stable ascending sort puts it first). -/
def pickEarlier (acc x : Lend) : Lend :=
  if x.created_at < acc.created_at then x else acc

def earliestLend : List Lend → Option Lend
  | [] => none
  | l :: ls => some (ls.foldl pickEarlier l)

def find_outstanding_lend (s : LibState) (reader : Reader) (book : Book) : Option Lend :=
  earliestLend (s.lends.filter (outstandingFor reader book))

inductive ReturnResult
  | readerNotFound
  | bookNotFound
  | noOutstandingLoan
  | success
  deriving Repr, DecidableEq

/-- `return_book` POST handler (`app/views/lending.py`).  `amount` is the
operator-entered quantity. -/
def return_book (s : LibState) (card_no isbn : String) (amount now : Int)
    (operator : Nat) : ReturnResult × LibState :=
  match find_reader_by_card s card_no with
  | none => (.readerNotFound, s)
  | some reader =>
    match find_book_by_isbn s isbn with
    | none => (.bookNotFound, s)
    | some book =>
      match find_outstanding_lend s reader book with
      | none => (.noOutstandingLoan, s)
      | some lend =>
        let record : ReturnRecord :=
          { id := s.next_return_id
            lend_id := lend.id
            amount := amount
            operator_id := some operator
            created_at := now
            is_deleted := false }
        (.success,
          { s with
              lends := updateFirst (fun l => l.id == lend.id)
                (fun l => { l with status := "returned", return_operator_id := some operator })
                s.lends
              books := updateFirst (bookMatches isbn)
                (fun b => { b with lend_amount := max (b.lend_amount - amount) 0 }) s.books
              returns := s.returns ++ [record]
              next_return_id := s.next_return_id + 1 })

inductive ReturnByIdResult
  | notFound
  | alreadyReturned
  | success
  deriving Repr, DecidableEq

/-- `return_from_record` handler (`app/views/lending.py`): return a specific
loan row in full.  `filter_by(id=lend_id, is_deleted=False).first_or_404()`,
then the `status != "lent"` guard, then a full-quantity return. -/
def return_from_record (s : LibState) (lend_id : Nat) (now : Int)
    (operator : Nat) : ReturnByIdResult × LibState :=
  match s.lends.find? (fun l => l.id == lend_id && !l.is_deleted) with
  | none => (.notFound, s)
  | some lend =>
    if lend.status != "lent" then (.alreadyReturned, s)
    else
      let record : ReturnRecord :=
        { id := s.next_return_id
          lend_id := lend.id
          amount := lend.amount
          operator_id := some operator
          created_at := now
          is_deleted := false }
      (.success,
        { s with
            lends := updateFirst (fun l => l.id == lend.id)
              (fun l => { l with status := "returned", return_operator_id := some operator })
              s.lends
            books := updateFirst (fun b => b.id == lend.book_id)
              (fun b => { b with lend_amount := max (b.lend_amount - lend.amount) 0 }) s.books
            returns := s.returns ++ [record]
            next_return_id := s.next_return_id + 1 })

/-! ### Book catalog handlers (`app/views/books.py`) -/

inductive BookOpResult
  | rejected
  | notFound
  | ok
  deriving Repr, DecidableEq

/-- `create_book` POST handler (`app/views/books.py`), restricted to the
fields of the embedded `Book`.  `amount` is the parsed form integer (the
unparseable/empty cases reject without a write and are not distinguished);
`lend_amount` is `int(form.get("lend_amount", 0) or 0)`, stored without any
validation. -/
def create_book (s : LibState) (name isbn : String) (amount lend_amount : Int) :
    BookOpResult × LibState :=
  if name == "" || isbn == "" then (.rejected, s)
  else if amount ≤ 0 then (.rejected, s)
  else if (s.books.find? (fun b => b.isbn == isbn && !b.is_deleted)).isSome then (.rejected, s)
  else if (s.books.find? (fun b => b.isbn == isbn && b.is_deleted)).isSome then
    (.ok,
      { s with
          books := updateFirst (fun b => b.isbn == isbn && b.is_deleted)
            (fun b => { b with name := name, isbn := isbn, amount := amount,
                               lend_amount := lend_amount, is_deleted := false })
            s.books })
  else
    (.ok,
      { s with
          books := s.books ++
            [{ id := s.next_book_id, isbn := isbn, name := name, amount := amount,
               lend_amount := lend_amount, is_deleted := false }]
          next_book_id := s.next_book_id + 1 })

/-- `update_book` POST handler (`app/views/books.py`).
`Book.query.get_or_404(book_id)` is a primary-key lookup that does not filter
on `is_deleted`.  `lend_form = none` models an absent/empty `lend_amount`
field, in which case the current value is kept
(`int(form.get("lend_amount", book.lend_amount) or book.lend_amount)`). -/
def update_book (s : LibState) (book_id : Nat) (name isbn : String)
    (amount : Int) (lend_form : Option Int) : BookOpResult × LibState :=
  match s.books.find? (fun b => b.id == book_id) with
  | none => (.notFound, s)
  | some _ =>
    if name == "" || isbn == "" then (.rejected, s)
    else if amount ≤ 0 then (.rejected, s)
    else
      (.ok,
        { s with
            books := updateFirst (fun b => b.id == book_id)
              (fun b => { b with name := name, isbn := isbn, amount := amount,
                                 lend_amount := lend_form.getD b.lend_amount })
              s.books })

/-! ### Synthetic backfill generator (`app/views/system.py`)

Calendar dates are modelled as day numbers (`Nat`); a datetime `t : Nat`
lies on day `t / 86400`, `datetime.combine(day, min.time())` is
`day * 86400` and `day_start + timedelta(days=1, seconds=-1)` is
`day_start + 86399`.  All datetimes built by the generator are whole
seconds, so second granularity is exact. -/

/-- `_pick_random_datetime` (`app/views/system.py`).  `day_choice` and
`off_choice` are the oracles for `random.choice(days)` and
`random.randint(0, span)`; taking them modulo the pool sizes ranges over
exactly the outcomes the Python code can produce. -/
def pick_random_datetime (start_day end_day : Nat) (excluded : List Nat)
    (min_datetime : Option Nat) (day_choice off_choice : Nat) : Option Nat :=
  if start_day > end_day then none
  else
    let days := ((List.range (end_day + 1 - start_day)).map (· + start_day)).filter
      (fun d => !(excluded.contains d))
    match days.get? (day_choice % days.length) with
    | none => none
    | some chosen_day =>
      let day_start := chosen_day * 86400
      let day_end := day_start + 86399
      let lower_bound :=
        match min_datetime with
        | some m => if m / 86400 == chosen_day then max day_start m else day_start
        | none => day_start
      if lower_bound > day_end then some lower_bound
      else
        let span := day_end - lower_bound
        some (lower_bound + off_choice % (span + 1))

inductive TestDataResult
  | invalidRange
  | noReader
  | noBook
  | noDate
  | success (returned : Bool)
  deriving Repr, DecidableEq

/-- `order_by(func.random()).first()` over a filtered table: an arbitrary
element of the filtered list, selected by the oracle index. -/
def pickRandomRow (l : List α) (choice : Nat) : Option α :=
  l.get? (choice % l.length)

/-- `execute_test_data` (`app/views/system.py`).  `reader_ok` abstracts the
optional grade/class filter joined onto the reader query; `return_roll` is
the outcome of `random.random() <= return_rate`; `due_choice` drives
`random.randint(15, 45)`; `super_admin` is the synthetic operator's user id.
Oracle parameters model every possible random outcome. -/
def execute_test_data (s : LibState) (start_day end_day : Nat)
    (excluded : List Nat) (reader_ok : Reader → Bool) (return_roll : Bool)
    (reader_choice book_choice day_choice off_choice due_choice
      ret_day_choice ret_off_choice super_admin : Nat) :
    TestDataResult × LibState :=
  if start_day > end_day then (.invalidRange, s)
  else
    match pickRandomRow (s.readers.filter (fun r => !r.is_deleted && reader_ok r))
        reader_choice with
    | none => (.noReader, s)
    | some reader =>
      match pickRandomRow (s.books.filter (fun b => !b.is_deleted && b.lend_amount < b.amount))
          book_choice with
      | none => (.noBook, s)
      | some book =>
        match pick_random_datetime start_day end_day excluded none day_choice off_choice with
        | none => (.noDate, s)
        | some borrow_at =>
          let lend : Lend :=
            { id := s.next_lend_id
              book_id := book.id
              reader_id := reader.id
              amount := 1
              due_date := (borrow_at : Int) + (15 + (due_choice % 31 : Nat) : Int) * 86400
              status := "lent"
              created_at := (borrow_at : Int)
              borrow_operator_id := some super_admin
              return_operator_id := none
              is_deleted := false }
          let books₁ := updateFirst (fun b => b.id == book.id)
            (fun b => { b with lend_amount := b.lend_amount + 1 }) s.books
          if return_roll then
            match pick_random_datetime (borrow_at / 86400) end_day excluded
                (some (borrow_at + 600)) ret_day_choice ret_off_choice with
            | some return_at =>
              let record : ReturnRecord :=
                { id := s.next_return_id
                  lend_id := lend.id
                  amount := lend.amount
                  operator_id := some super_admin
                  created_at := (return_at : Int)
                  is_deleted := false }
              (.success true,
                { s with
                    books := updateFirst (fun b => b.id == book.id)
                      (fun b => { b with lend_amount := max (b.lend_amount - 1) 0 }) books₁
                    lends := s.lends ++
                      [{ lend with status := "returned", return_operator_id := some super_admin }]
                    returns := s.returns ++ [record]
                    next_lend_id := s.next_lend_id + 1
                    next_return_id := s.next_return_id + 1 })
            | none =>
              (.success false,
                { s with books := books₁, lends := s.lends ++ [lend],
                         next_lend_id := s.next_lend_id + 1 })
          else
            (.success false,
              { s with books := books₁, lends := s.lends ++ [lend],
                       next_lend_id := s.next_lend_id + 1 })

/-- The lends selected for deletion by `_delete_super_admin_data`:
`(Lend.borrow_operator_id == super.id) | (Lend.return_operator_id == super.id)`. -/
def syntheticLend (super_admin : Nat) (l : Lend) : Bool :=
  l.borrow_operator_id == some super_admin || l.return_operator_id == some super_admin

/-- Per-lend stock release step of `_delete_super_admin_data`:
`if lend.status != "returned" and lend.book:
   lend.book.lend_amount = max(lend.book.lend_amount - lend.amount, 0)`. -/
def releaseLendStock (bs : List Book) (l : Lend) : List Book :=
  if l.status != "returned" && (bs.find? (fun b => b.id == l.book_id)).isSome then
    updateFirst (fun b => b.id == l.book_id)
      (fun b => { b with lend_amount := max (b.lend_amount - l.amount) 0 }) bs
  else bs

/-- `_delete_super_admin_data` (`app/views/system.py`), the body of
`delete_test_data_batch`: delete every return row whose operator is the
synthetic super admin, then every lend row it borrowed or returned,
releasing the stock of the non-returned ones.  Also returns the deleted
row count. -/
def delete_super_admin_data (s : LibState) (super_admin : Nat) : LibState × Nat :=
  let keptReturns := s.returns.filter (fun r => !(r.operator_id == some super_admin))
  let targets := s.lends.filter (syntheticLend super_admin)
  let keptLends := s.lends.filter (fun l => !(syntheticLend super_admin l))
  ({ s with
      returns := keptReturns
      lends := keptLends
      books := targets.foldl releaseLendStock s.books },
    (s.returns.length - keptReturns.length) + targets.length)

/-! ### Dashboard statistics (`app/views/stats.py`) -/

/-- `get_overdue_count(days)` membership (`app/views/stats.py`):
`status == "lent" ∧ due_date <= now - days·86400 ∧ ¬is_deleted`. -/
def overdueAtLeast (days : Int) (now : Int) (l : Lend) : Bool :=
  l.status == "lent" && l.due_date ≤ now - days * 86400 && !l.is_deleted

def get_overdue_count (s : LibState) (days now : Int) : Nat :=
  (s.lends.filter (overdueAtLeast days now)).length

/-- `get_overdue_between(min_days, max_days)` membership
(`app/views/stats.py`): `status == "lent" ∧
now - max_days·86400 ≤ due_date < now - min_days·86400 ∧ ¬is_deleted`. -/
def overdueBetween (min_days max_days : Int) (now : Int) (l : Lend) : Bool :=
  l.status == "lent" && now - max_days * 86400 ≤ l.due_date &&
    l.due_date < now - min_days * 86400 && !l.is_deleted

def get_overdue_between (s : LibState) (min_days max_days now : Int) : Nat :=
  (s.lends.filter (overdueBetween min_days max_days now)).length

/-- Dashboard `book_inventory_total` (`app/views/stats.py`):
`sum(Book.amount - Book.lend_amount)` over non-deleted books, with no
per-book clamping. -/
def book_inventory_total (s : LibState) : Int :=
  ((s.books.filter (fun b => !b.is_deleted)).map (fun b => b.amount - b.lend_amount)).sum

/-- The same total computed from `Book.available_amount()`, whose per-book
value is clamped at zero. -/
def available_amount_total (s : LibState) : Int :=
  ((s.books.filter (fun b => !b.is_deleted)).map available_amount).sum

/-! ### The reachable-state machine

One constructor per mutating handler named in claim C1, each carrying the
request parameters (and the randomness oracles of the backfill generator). -/

inductive Op
  | createBook (name isbn : String) (amount lend_amount : Int)
  | updateBook (book_id : Nat) (name isbn : String) (amount : Int) (lend_form : Option Int)
  | borrowOp (card_no isbn : String) (amount due_days now : Int) (operator : Nat)
  | returnOp (card_no isbn : String) (amount now : Int) (operator : Nat)
  | returnById (lend_id : Nat) (now : Int) (operator : Nat)
  | backfill (start_day end_day : Nat) (excluded : List Nat) (return_roll : Bool)
      (rc bc dc oc duc rdc roc super_admin : Nat)
  | batchDelete (super_admin : Nat)
  deriving Repr

/-- Effect of one handler invocation on the store (the handler's HTTP
response is discarded). The grade/class filter of the backfill generator is
existentially irrelevant to stock, so `backfill` uses the trivial filter. -/
def step (s : LibState) : Op → LibState
  | .createBook name isbn amount lend_amount => (create_book s name isbn amount lend_amount).2
  | .updateBook book_id name isbn amount lend_form =>
      (update_book s book_id name isbn amount lend_form).2
  | .borrowOp card isbn amount due_days now operator =>
      (borrow s card isbn amount due_days now operator).2
  | .returnOp card isbn amount now operator => (return_book s card isbn amount now operator).2
  | .returnById lend_id now operator => (return_from_record s lend_id now operator).2
  | .backfill sd ed excl roll rc bc dc oc duc rdc roc sa =>
      (execute_test_data s sd ed excl (fun _ => true) roll rc bc dc oc duc rdc roc sa).2
  | .batchDelete super_admin => (delete_super_admin_data s super_admin).1

def steps (s : LibState) (ops : List Op) : LibState :=
  ops.foldl step s

/-- The per-book inventory invariant of claim C1, asserted for books that are
not soft-deleted. -/
def BookOk (b : Book) : Prop :=
  ¬b.is_deleted → 0 ≤ b.lend_amount ∧ b.lend_amount ≤ b.amount

/-- The inventory invariant of claim C1 together with the bookkeeping
well-formedness that the database schema provides (unique autoincremented
primary keys) and that positive borrow quantities establish (nonnegative
loan quantities). -/
def Inv (s : LibState) : Prop :=
  (s.books.map Book.id).Nodup ∧
  (∀ b ∈ s.books, b.id < s.next_book_id) ∧
  (∀ b ∈ s.books, BookOk b) ∧
  (∀ l ∈ s.lends, 0 ≤ l.amount)

instance (b : Book) : Decidable (BookOk b) := by
  unfold BookOk; infer_instance

instance (s : LibState) : Decidable (Inv s) := by
  unfold Inv; infer_instance

/-- The request-level side conditions under which an operation preserves
`Inv`: positive borrow/return quantities, and book create/edit submissions
whose `lend_amount` lies within `[0, amount]` (the handlers themselves never
check any of this). -/
def Admissible (s : LibState) : Op → Prop
  | .createBook _ _ amount lend_amount => 0 ≤ lend_amount ∧ lend_amount ≤ amount
  | .updateBook book_id _ _ amount lend_form =>
      ∀ b ∈ s.books, b.id = book_id →
        0 ≤ lend_form.getD b.lend_amount ∧ lend_form.getD b.lend_amount ≤ amount
  | .borrowOp _ _ amount _ _ _ => 0 < amount
  | .returnOp _ _ amount _ _ => 0 < amount
  | .returnById _ _ _ => True
  | .backfill _ _ _ _ _ _ _ _ _ _ _ _ => True
  | .batchDelete _ => True

def StepsOk : LibState → List Op → Prop
  | _, [] => True
  | s, op :: ops => Admissible s op ∧ StepsOk (step s op) ops

/-! ### Exact stock release of batch deletion (claim C9) -/

/-- Sum of the quantities of the not-yet-returned lends among `ts` that
reference book `bid`. -/
def releaseSum (ts : List Lend) (bid : Nat) : Int :=
  ((ts.filter (fun l => l.status != "returned" && l.book_id == bid)).map Lend.amount).sum

/-! ### Decidability instances and concrete states used by the witnesses -/

instance admissibleDec (s : LibState) (op : Op) : Decidable (Admissible s op) := by
  cases op <;> (unfold Admissible; infer_instance)

instance stepsOkDec : (s : LibState) → (ops : List Op) → Decidable (StepsOk s ops)
  | _, [] => isTrue trivial
  | s, op :: ops =>
    letI h2 : Decidable (StepsOk (step s op) ops) := stepsOkDec (step s op) ops
    inferInstanceAs (Decidable (Admissible s op ∧ StepsOk (step s op) ops))

/-- The consistency property of claim C5 (amended): every return row of the
post-state is either pre-existing or references a loan row of the post-state
with the same quantity. -/
def ReturnsConsistent (s s2 : LibState) : Prop :=
  ∀ r ∈ s2.returns, r ∈ s.returns ∨ ∃ l ∈ s2.lends, l.id = r.lend_id ∧ r.amount = l.amount

/-- The empty database. -/
def emptyState : LibState :=
  { books := [], readers := [], lends := [], returns := [],
    next_book_id := 1, next_lend_id := 1, next_return_id := 1 }

/-- One book (isbn `"i"`, `amount = a`, `lend_amount = l`) and one reader
(card `"c"`), no loan history. -/
def oneBookReaderState (a l : Int) : LibState :=
  { books := [⟨1, "i", "b", a, l, false⟩], readers := [⟨1, "c", false⟩],
    lends := [], returns := [],
    next_book_id := 2, next_lend_id := 1, next_return_id := 1 }

/-- Three outstanding loans of the same item+patron pair with creation
timestamps 30, 10 and 20 (spec §8: FIFO matching scenario). -/
def threeLendState : LibState :=
  { books := [⟨1, "i", "b", 5, 3, false⟩], readers := [⟨1, "c", false⟩],
    lends := [⟨1, 1, 1, 1, 1000, "lent", 30, some 7, none, false⟩,
              ⟨2, 1, 1, 1, 1000, "lent", 10, some 7, none, false⟩,
              ⟨3, 1, 1, 1, 1000, "lent", 20, some 7, none, false⟩],
    returns := [],
    next_book_id := 2, next_lend_id := 4, next_return_id := 1 }

/-- One outstanding loan of quantity 2 on a book with `lend_amount = 2`. -/
def oneLendState : LibState :=
  { books := [⟨1, "i", "b", 5, 2, false⟩], readers := [⟨1, "c", false⟩],
    lends := [⟨1, 1, 1, 2, 1000, "lent", 5, some 7, none, false⟩],
    returns := [],
    next_book_id := 2, next_lend_id := 2, next_return_id := 1 }

/-- A single outstanding loan due at time 0, for the overdue buckets. -/
def overdueState : LibState :=
  { books := [], readers := [],
    lends := [⟨1, 1, 1, 1, 0, "lent", 0, none, none, false⟩],
    returns := [],
    next_book_id := 1, next_lend_id := 2, next_return_id := 1 }

/-- Initial state of the backfill failing input: one reader, one book with
free stock. -/
def backfillState : LibState :=
  { books := [⟨1, "i", "b", 2, 0, false⟩], readers := [⟨1, "c", false⟩],
    lends := [], returns := [],
    next_book_id := 2, next_lend_id := 1, next_return_id := 1 }

/-- A mixed state for batch deletion: a synthetic outstanding loan of
quantity 2 on book 1, a synthetic returned loan on book 2 with its return
row, plus a normal loan and return (operator 1); the synthetic operator id
is 9. -/
def batchState : LibState :=
  { books := [⟨1, "i", "b", 5, 3, false⟩, ⟨2, "j", "c", 4, 1, false⟩],
    readers := [⟨1, "c", false⟩],
    lends := [⟨1, 1, 1, 2, 1000, "lent", 10, some 9, none, false⟩,
              ⟨2, 2, 1, 1, 1000, "returned", 20, some 9, some 9, false⟩,
              ⟨3, 1, 1, 1, 1000, "lent", 30, some 1, none, false⟩],
    returns := [⟨1, 2, 1, some 9, 25, false⟩, ⟨2, 3, 1, some 1, 40, false⟩],
    next_book_id := 3, next_lend_id := 4, next_return_id := 3 }

/-- A non-deleted book whose `lend_amount` exceeds its `amount`. -/
def overdrawnState : LibState :=
  { books := [⟨1, "i", "b", 1, 3, false⟩, ⟨2, "j", "c", 2, 1, false⟩],
    readers := [], lends := [], returns := [],
    next_book_id := 3, next_lend_id := 1, next_return_id := 1 }

/-- Operation sequence for the C1 witness: an admissible book creation
followed by a borrow attempt. -/
def c1WitnessOps : List Op :=
  [Op.createBook "b" "i" 3 1, Op.borrowOp "c" "i" 1 30 0 7]

/-! ### Theorems -/

theorem updateFirst_of_find?_eq_none {p : α → Bool} {f : α → α} {l : List α}
    (h : l.find? p = none) : updateFirst p f l = l := by
  induction l with
  | nil => rfl
  | cons x xs ih =>
    rw [List.find?_cons] at h
    by_cases hx : p x
    · simp [hx] at h
    · have hx' : p x = false := by simpa using hx
      simp only [hx', Bool.false_eq_true, if_false] at h
      simp only [updateFirst, hx', Bool.false_eq_true, if_false]
      rw [ih h]

theorem updateFirst_decomp {p : α → Bool} (f : α → α) {l : List α} {a : α}
    (h : l.find? p = some a) :
    ∃ l₁ l₂, l = l₁ ++ a :: l₂ ∧ (∀ x ∈ l₁, ¬ p x) ∧
      updateFirst p f l = l₁ ++ f a :: l₂ := by
  induction l with
  | nil => simp [List.find?] at h
  | cons x xs ih =>
    rw [List.find?_cons] at h
    by_cases hx : p x
    · simp only [hx, if_pos] at h
      obtain rfl : x = a := by simpa using h
      exact ⟨[], xs, by simp, by simp, by simp [updateFirst, hx]⟩
    · have hx' : p x = false := by simpa using hx
      simp only [hx', Bool.false_eq_true, if_false] at h
      obtain ⟨l₁, l₂, hEq, hAll, hUpd⟩ := ih h
      refine ⟨x :: l₁, l₂, by simp [hEq], ?_, ?_⟩
      · intro y hy
        rcases List.mem_cons.mp hy with hy | hy
        · subst hy; simpa using hx
        · exact hAll y hy
      · simp [updateFirst, hx', hUpd]

theorem mem_updateFirst {p : α → Bool} {f : α → α} {l : List α} {y : α}
    (h : y ∈ updateFirst p f l) : y ∈ l ∨ ∃ x ∈ l, p x ∧ y = f x := by
  induction l with
  | nil => simp [updateFirst] at h
  | cons x xs ih =>
    by_cases hx : p x
    · simp only [updateFirst, hx, if_pos] at h
      rcases List.mem_cons.mp h with h | h
      · exact Or.inr ⟨x, by simp, hx, h⟩
      · exact Or.inl (List.mem_cons_of_mem _ h)
    · simp only [updateFirst, hx, Bool.false_eq_true, if_false] at h
      rcases List.mem_cons.mp h with h | h
      · exact Or.inl (by simp [h])
      · rcases ih h with h | ⟨z, hz, hpz, hy⟩
        · exact Or.inl (List.mem_cons_of_mem _ h)
        · exact Or.inr ⟨z, List.mem_cons_of_mem _ hz, hpz, hy⟩

theorem updateFirst_map {p : α → Bool} {f : α → α} {g : α → β} {l : List α}
    (h : ∀ x, g (f x) = g x) : (updateFirst p f l).map g = l.map g := by
  induction l with
  | nil => rfl
  | cons x xs ih =>
    by_cases hx : p x
    · simp [updateFirst, hx, h]
    · simp [updateFirst, hx, ih]

theorem find?_append_middle {p : α → Bool} {l₁ : List α} (l₂ : List α) {b : α}
    (hAll : ∀ x ∈ l₁, ¬ p x) (hb : p b) :
    (l₁ ++ b :: l₂).find? p = some b := by
  induction l₁ with
  | nil => simp [List.find?, hb]
  | cons z zs ih =>
    have hz : p z = false := by simpa using hAll z (by simp)
    simp only [List.cons_append, List.find?_cons, hz, Bool.false_eq_true, if_false]
    exact ih (fun x hx => hAll x (List.mem_cons_of_mem _ hx))

theorem find?_updateFirst_self {p : α → Bool} {f : α → α} {l : List α} {a : α}
    (h : l.find? p = some a) (hfa : p (f a)) :
    (updateFirst p f l).find? p = some (f a) := by
  obtain ⟨l₁, l₂, hEq, hAll, hUpd⟩ := updateFirst_decomp f h
  rw [hUpd]
  exact find?_append_middle l₂ hAll hfa

theorem length_updateFirst {p : α → Bool} {f : α → α} (l : List α) :
    (updateFirst p f l).length = l.length := by
  induction l with
  | nil => rfl
  | cons x xs ih =>
    by_cases hx : p x <;> simp [updateFirst, hx, ih]

/-- If the mapped keys of `l` are nodup, two members with the same key are
equal. -/
theorem nodup_map_inj {g : α → β} {l : List α}
    (h : (l.map g).Nodup) {x y : α} (hx : x ∈ l) (hy : y ∈ l)
    (hg : g x = g y) : x = y := by
  induction l with
  | nil => simp at hx
  | cons z zs ih =>
    simp only [List.map_cons, List.nodup_cons] at h
    rcases List.mem_cons.mp hx with hx1 | hx1 <;>
      rcases List.mem_cons.mp hy with hy1 | hy1
    · exact hx1.trans hy1.symm
    · exfalso
      apply h.1
      subst hx1
      rw [hg]
      exact List.mem_map_of_mem g hy1
    · exfalso
      apply h.1
      subst hy1
      rw [← hg]
      exact List.mem_map_of_mem g hx1
    · exact ih h.2 hx1 hy1

/-! ### Preservation of the inventory invariant -/

theorem mem_updateFirst_find {p : α → Bool} {f : α → α} {l : List α} {y : α}
    (h : y ∈ updateFirst p f l) : y ∈ l ∨ ∃ x, l.find? p = some x ∧ y = f x := by
  cases hf : l.find? p with
  | none => rw [updateFirst_of_find?_eq_none hf] at h; exact Or.inl h
  | some a =>
    obtain ⟨l₁, l₂, hEq, _, hUpd⟩ := updateFirst_decomp f hf
    rw [hUpd] at h
    rcases List.mem_append.mp h with h | h
    · exact Or.inl (hEq ▸ List.mem_append_left _ h)
    · rcases List.mem_cons.mp h with h | h
      · exact Or.inr ⟨a, rfl, h⟩
      · exact Or.inl (hEq ▸ List.mem_append_right _ (List.mem_cons_of_mem _ h))

theorem BookOk_clamp {b : Book} {q : Int} (hq : 0 ≤ q) (h : BookOk b) :
    BookOk { b with lend_amount := max (b.lend_amount - q) 0 } := by
  intro hdel
  obtain ⟨hb1, hb2⟩ := h hdel
  show 0 ≤ max (b.lend_amount - q) 0 ∧ max (b.lend_amount - q) 0 ≤ b.amount
  exact ⟨le_max_right _ _, max_le (by omega) (by omega)⟩

theorem BookOk_incr {b : Book} {q : Int} (hq : 0 < q)
    (hav : ¬ available_amount b < q) (h : BookOk b) :
    BookOk { b with lend_amount := b.lend_amount + q } := by
  intro hdel
  obtain ⟨hb1, hb2⟩ := h hdel
  push_neg at hav
  unfold available_amount at hav
  show 0 ≤ b.lend_amount + q ∧ b.lend_amount + q ≤ b.amount
  rcases le_max_iff.mp hav with hle | hle
  · exact ⟨by omega, by omega⟩
  · omega

theorem bookOk_updateFirst {p : Book → Bool} {f : Book → Book} {bs : List Book}
    (hall : ∀ b ∈ bs, BookOk b)
    (hf : ∀ b, bs.find? p = some b → BookOk (f b)) :
    ∀ b ∈ updateFirst p f bs, BookOk b := by
  intro y hy
  rcases mem_updateFirst_find hy with hy | ⟨x, hx, rfl⟩
  · exact hall y hy
  · exact hf x hx

theorem nodup_id_updateFirst {p : Book → Bool} {f : Book → Book}
    (hf : ∀ x, (f x).id = x.id) {bs : List Book}
    (h : (bs.map Book.id).Nodup) : ((updateFirst p f bs).map Book.id).Nodup := by
  rw [updateFirst_map hf]; exact h

theorem bound_updateFirst {p : Book → Bool} {f : Book → Book}
    (hf : ∀ x, (f x).id = x.id) {bs : List Book} {n : Nat}
    (h : ∀ b ∈ bs, b.id < n) : ∀ b ∈ updateFirst p f bs, b.id < n := by
  intro b hb
  rcases mem_updateFirst hb with hb | ⟨x, hx, _, rfl⟩
  · exact h b hb
  · rw [hf]; exact h x hx

theorem lendAmounts_updateFirst {p : Lend → Bool} {f : Lend → Lend}
    (hf : ∀ x, (f x).amount = x.amount) {ls : List Lend}
    (h : ∀ l ∈ ls, 0 ≤ l.amount) : ∀ l ∈ updateFirst p f ls, 0 ≤ l.amount := by
  intro y hy
  rcases mem_updateFirst hy with hy | ⟨x, hx, _, rfl⟩
  · exact h y hy
  · rw [hf]; exact h x hx

theorem lendAmounts_append {ls ms : List Lend}
    (h : ∀ l ∈ ls, 0 ≤ l.amount) (h2 : ∀ l ∈ ms, 0 ≤ l.amount) :
    ∀ l ∈ ls ++ ms, 0 ≤ l.amount := by
  intro l hl
  rcases List.mem_append.mp hl with hl | hl
  · exact h l hl
  · exact h2 l hl

theorem inv_create {s : LibState} {nm ib : String} {am la : Int}
    (h : Inv s) (ha : 0 ≤ la ∧ la ≤ am) :
    Inv (create_book s nm ib am la).2 := by
  obtain ⟨h1, h2, h3, h4⟩ := h
  unfold create_book
  split_ifs with c1 c2 c3 c4
  · exact ⟨h1, h2, h3, h4⟩
  · exact ⟨h1, h2, h3, h4⟩
  · exact ⟨h1, h2, h3, h4⟩
  · -- restore a soft-deleted book with the submitted fields
    have hid : (updateFirst (fun b => b.isbn == ib && b.is_deleted)
        (fun b => { b with name := nm, isbn := ib, amount := am,
                           lend_amount := la, is_deleted := false }) s.books).map Book.id
        = s.books.map Book.id := updateFirst_map (fun _ => rfl)
    refine ⟨by rw [hid]; exact h1, ?_, ?_, h4⟩
    · intro b hb
      rcases mem_updateFirst_find hb with hb | ⟨x, hx, rfl⟩
      · exact h2 b hb
      · exact h2 x (List.mem_of_find?_eq_some hx)
    · intro b hb
      rcases mem_updateFirst_find hb with hb | ⟨x, hx, rfl⟩
      · exact h3 b hb
      · exact fun _ => ⟨ha.1, ha.2⟩
  · -- insert a fresh row with the submitted fields
    refine ⟨?_, ?_, ?_, h4⟩
    · simp only [List.map_append, List.map_cons, List.map_nil]
      rw [List.nodup_append]
      refine ⟨h1, List.nodup_singleton _, ?_⟩
      intro x hx hmem
      simp only [List.mem_singleton] at hmem
      obtain ⟨b, hb, hbid⟩ := List.mem_map.mp hx
      subst hmem
      exact absurd (hbid ▸ h2 b hb) (lt_irrefl _)
    · intro b hb
      rcases List.mem_append.mp hb with hb | hb
      · exact Nat.lt_succ_of_lt (h2 b hb)
      · simp only [List.mem_singleton] at hb
        subst hb
        exact Nat.lt_succ_self _
    · intro b hb
      rcases List.mem_append.mp hb with hb | hb
      · exact h3 b hb
      · simp only [List.mem_singleton] at hb
        subst hb
        exact fun _ => ⟨ha.1, ha.2⟩

theorem inv_update {s : LibState} {book_id : Nat} {nm ib : String} {am : Int}
    {lf : Option Int} (h : Inv s)
    (ha : ∀ b ∈ s.books, b.id = book_id →
      0 ≤ lf.getD b.lend_amount ∧ lf.getD b.lend_amount ≤ am) :
    Inv (update_book s book_id nm ib am lf).2 := by
  obtain ⟨h1, h2, h3, h4⟩ := h
  unfold update_book
  cases hfind : s.books.find? (fun b => b.id == book_id) with
  | none => exact ⟨h1, h2, h3, h4⟩
  | some b0 =>
    simp only
    split_ifs with c1 c2
    · exact ⟨h1, h2, h3, h4⟩
    · exact ⟨h1, h2, h3, h4⟩
    · have hid : (updateFirst (fun b => b.id == book_id)
          (fun b => { b with name := nm, isbn := ib, amount := am,
                             lend_amount := lf.getD b.lend_amount }) s.books).map Book.id
          = s.books.map Book.id := updateFirst_map (fun _ => rfl)
      refine ⟨by rw [hid]; exact h1, ?_, ?_, h4⟩
      · intro b hb
        rcases mem_updateFirst_find hb with hb | ⟨x, hx, rfl⟩
        · exact h2 b hb
        · exact h2 x (List.mem_of_find?_eq_some hx)
      · intro b hb
        rcases mem_updateFirst_find hb with hb | ⟨x, hx, rfl⟩
        · exact h3 b hb
        · have hxid : x.id = book_id := by simpa using List.find?_some hx
          have := ha x (List.mem_of_find?_eq_some hx) hxid
          exact fun _ => this

theorem inv_borrow {s : LibState} {card isbn : String} {q dd now : Int} {op : Nat}
    (h : Inv s) (hq : 0 < q) :
    Inv (borrow s card isbn q dd now op).2 := by
  obtain ⟨h1, h2, h3, h4⟩ := h
  unfold borrow
  cases hr : find_reader_by_card s card with
  | none => exact ⟨h1, h2, h3, h4⟩
  | some reader =>
    cases hb : find_book_by_isbn s isbn with
    | none => exact ⟨h1, h2, h3, h4⟩
    | some book =>
      dsimp only
      split_ifs with hav
      · exact ⟨h1, h2, h3, h4⟩
      · refine ⟨nodup_id_updateFirst ?_ h1, bound_updateFirst ?_ h2,
          bookOk_updateFirst h3 ?_, lendAmounts_append h4 ?_⟩
        · intro x; rfl
        · intro x; rfl
        · intro x hx
          have hb' : s.books.find? (bookMatches isbn) = some book := hb
          rw [hx] at hb'
          obtain rfl : x = book := Option.some.inj hb'
          exact BookOk_incr hq hav (h3 x (List.mem_of_find?_eq_some hx))
        · intro l hl
          obtain rfl := List.mem_singleton.mp hl
          exact le_of_lt hq

theorem inv_return_book {s : LibState} {card isbn : String} {q now : Int} {op : Nat}
    (h : Inv s) (hq : 0 < q) :
    Inv (return_book s card isbn q now op).2 := by
  obtain ⟨h1, h2, h3, h4⟩ := h
  unfold return_book
  cases hr : find_reader_by_card s card with
  | none => exact ⟨h1, h2, h3, h4⟩
  | some reader =>
    dsimp only
    cases hb : find_book_by_isbn s isbn with
    | none => exact ⟨h1, h2, h3, h4⟩
    | some book =>
      dsimp only
      cases hl : find_outstanding_lend s reader book with
      | none => exact ⟨h1, h2, h3, h4⟩
      | some lend =>
        dsimp only
        refine ⟨nodup_id_updateFirst ?_ h1, bound_updateFirst ?_ h2,
          bookOk_updateFirst h3 ?_, lendAmounts_updateFirst ?_ h4⟩
        · intro x; rfl
        · intro x; rfl
        · intro x hx
          exact BookOk_clamp (le_of_lt hq) (h3 x (List.mem_of_find?_eq_some hx))
        · intro x; rfl

theorem inv_return_from_record {s : LibState} {lend_id : Nat} {now : Int} {op : Nat}
    (h : Inv s) :
    Inv (return_from_record s lend_id now op).2 := by
  obtain ⟨h1, h2, h3, h4⟩ := h
  unfold return_from_record
  cases hfind : s.lends.find? (fun l => l.id == lend_id && !l.is_deleted) with
  | none => exact ⟨h1, h2, h3, h4⟩
  | some lend =>
    dsimp only
    split_ifs with hst
    · exact ⟨h1, h2, h3, h4⟩
    · have hlamt : 0 ≤ lend.amount := h4 lend (List.mem_of_find?_eq_some hfind)
      refine ⟨nodup_id_updateFirst ?_ h1, bound_updateFirst ?_ h2,
        bookOk_updateFirst h3 ?_, lendAmounts_updateFirst ?_ h4⟩
      · intro x; rfl
      · intro x; rfl
      · intro x hx
        exact BookOk_clamp hlamt (h3 x (List.mem_of_find?_eq_some hx))
      · intro x; rfl

theorem inv_backfill {s : LibState} {sd ed : Nat} {ex : List Nat} {rk : Reader → Bool}
    {roll : Bool} {rc bc dc oc duc rdc roc sa : Nat} (h : Inv s) :
    Inv (execute_test_data s sd ed ex rk roll rc bc dc oc duc rdc roc sa).2 := by
  obtain ⟨h1, h2, h3, h4⟩ := h
  unfold execute_test_data
  by_cases hrange : sd > ed
  · rw [if_pos hrange]
    exact ⟨h1, h2, h3, h4⟩
  · rw [if_neg hrange]
    cases hre : pickRandomRow (s.readers.filter (fun r => !r.is_deleted && rk r)) rc with
    | none => exact ⟨h1, h2, h3, h4⟩
    | some reader =>
      dsimp only
      cases hbk : pickRandomRow
          (s.books.filter (fun b => !b.is_deleted && b.lend_amount < b.amount)) bc with
      | none => exact ⟨h1, h2, h3, h4⟩
      | some book =>
        dsimp only
        have hbkmem : book ∈ s.books.filter
            (fun b => !b.is_deleted && b.lend_amount < b.amount) :=
          List.get?_mem hbk
        have hPmem : book ∈ s.books := (List.mem_filter.mp hbkmem).1
        have hPpred := (List.mem_filter.mp hbkmem).2
        have hlt : book.lend_amount < book.amount :=
          of_decide_eq_true (Bool.and_elim_right hPpred)
        have hnotdel : ¬ book.is_deleted = true := by
          have := Bool.and_elim_left hPpred
          simp at this
          simp [this]
        have h0 : 0 ≤ book.lend_amount := (h3 book hPmem hnotdel).1
        have hincr : ∀ x, s.books.find? (fun b => b.id == book.id) = some x →
            BookOk { x with lend_amount := x.lend_amount + 1 } := by
          intro x hx
          have hxmem := List.mem_of_find?_eq_some hx
          have hxid : x.id = book.id := by simpa using List.find?_some hx
          obtain rfl : x = book := nodup_map_inj h1 hxmem hPmem hxid
          intro _
          show 0 ≤ x.lend_amount + 1 ∧ x.lend_amount + 1 ≤ x.amount
          omega
        have hok1 : ∀ b ∈ updateFirst (fun b => b.id == book.id)
            (fun b => { b with lend_amount := b.lend_amount + 1 }) s.books, BookOk b :=
          bookOk_updateFirst h3 hincr
        cases hba : pick_random_datetime sd ed ex none dc oc with
        | none => exact ⟨h1, h2, h3, h4⟩
        | some borrow_at =>
          dsimp only
          by_cases hroll : roll = true
          · rw [if_pos hroll]
            cases hrt : pick_random_datetime (borrow_at / 86400) ed ex
                (some (borrow_at + 600)) rdc roc with
            | some return_at =>
              dsimp only
              refine ⟨nodup_id_updateFirst ?_ (nodup_id_updateFirst ?_ h1),
                bound_updateFirst ?_ (bound_updateFirst ?_ h2),
                bookOk_updateFirst hok1 ?_,
                lendAmounts_append h4 ?_⟩
              · intro x; rfl
              · intro x; rfl
              · intro x; rfl
              · intro x; rfl
              · intro x hx
                exact BookOk_clamp (by norm_num) (hok1 x (List.mem_of_find?_eq_some hx))
              · intro l hl
                obtain rfl := List.mem_singleton.mp hl
                show (0 : Int) ≤ 1
                norm_num
            | none =>
              dsimp only
              refine ⟨nodup_id_updateFirst ?_ h1, bound_updateFirst ?_ h2, hok1,
                lendAmounts_append h4 ?_⟩
              · intro x; rfl
              · intro x; rfl
              · intro l hl
                obtain rfl := List.mem_singleton.mp hl
                show (0 : Int) ≤ 1
                norm_num
          · rw [if_neg hroll]
            refine ⟨nodup_id_updateFirst ?_ h1, bound_updateFirst ?_ h2, hok1,
              lendAmounts_append h4 ?_⟩
            · intro x; rfl
            · intro x; rfl
            · intro l hl
              obtain rfl := List.mem_singleton.mp hl
              show (0 : Int) ≤ 1
              norm_num

theorem releaseLendStock_map_id (bs : List Book) (l : Lend) :
    (releaseLendStock bs l).map Book.id = bs.map Book.id := by
  unfold releaseLendStock
  split_ifs with hc
  · exact updateFirst_map (fun _ => rfl)
  · rfl

theorem foldl_release_map_id (ts : List Lend) (bs : List Book) :
    (ts.foldl releaseLendStock bs).map Book.id = bs.map Book.id := by
  induction ts generalizing bs with
  | nil => rfl
  | cons t ts ih => rw [List.foldl_cons, ih, releaseLendStock_map_id]

theorem bookOk_releaseLendStock {bs : List Book} {l : Lend} (hl : 0 ≤ l.amount)
    (h : ∀ b ∈ bs, BookOk b) : ∀ b ∈ releaseLendStock bs l, BookOk b := by
  unfold releaseLendStock
  split_ifs with hc
  · exact bookOk_updateFirst h
      (fun x hx => BookOk_clamp hl (h x (List.mem_of_find?_eq_some hx)))
  · exact h

theorem bookOk_foldl_release {ts : List Lend} (hts : ∀ l ∈ ts, 0 ≤ l.amount) :
    ∀ {bs : List Book}, (∀ b ∈ bs, BookOk b) →
      ∀ b ∈ ts.foldl releaseLendStock bs, BookOk b := by
  induction ts with
  | nil => intro bs h; simpa using h
  | cons t ts ih =>
    intro bs h b hb
    rw [List.foldl_cons] at hb
    exact ih (fun l hl => hts l (List.mem_cons_of_mem _ hl))
      (bookOk_releaseLendStock (hts t (by simp)) h) b hb

theorem bound_of_map_id_eq {bs cs : List Book} {n : Nat}
    (hmap : cs.map Book.id = bs.map Book.id) (h : ∀ b ∈ bs, b.id < n) :
    ∀ b ∈ cs, b.id < n := by
  intro b hb
  have hmem : b.id ∈ bs.map Book.id := by
    rw [← hmap]
    exact List.mem_map_of_mem _ hb
  obtain ⟨x, hx, hxe⟩ := List.mem_map.mp hmem
  rw [← hxe]
  exact h x hx

theorem inv_batch_delete {s : LibState} {sa : Nat} (h : Inv s) :
    Inv (delete_super_admin_data s sa).1 := by
  obtain ⟨h1, h2, h3, h4⟩ := h
  unfold delete_super_admin_data
  dsimp only
  have htargets : ∀ l ∈ s.lends.filter (syntheticLend sa), 0 ≤ l.amount :=
    fun l hl => h4 l (List.mem_filter.mp hl).1
  refine ⟨?_, ?_, ?_, ?_⟩
  · rw [foldl_release_map_id]
    exact h1
  · exact bound_of_map_id_eq (foldl_release_map_id _ _) h2
  · exact bookOk_foldl_release htargets h3
  · exact fun l hl => h4 l (List.mem_filter.mp hl).1

/-! ### FIFO selection of the outstanding loan (claim C3) -/

theorem foldl_pickEarlier_mem : ∀ (xs : List Lend) (acc : Lend),
    xs.foldl pickEarlier acc ∈ acc :: xs := by
  intro xs
  induction xs with
  | nil => intro acc; simp
  | cons y ys ih =>
    intro acc
    rw [List.foldl_cons]
    rcases List.mem_cons.mp (ih (pickEarlier acc y)) with h | h
    · rw [h]
      unfold pickEarlier
      split_ifs
      · simp
      · simp
    · exact List.mem_cons_of_mem _ (List.mem_cons_of_mem _ h)

theorem foldl_pickEarlier_le : ∀ (xs : List Lend) (acc x : Lend),
    x ∈ acc :: xs → (xs.foldl pickEarlier acc).created_at ≤ x.created_at := by
  intro xs
  induction xs with
  | nil =>
    intro acc x hx
    obtain rfl := List.mem_singleton.mp hx
    simp
  | cons y ys ih =>
    intro acc x hx
    rw [List.foldl_cons]
    have hstep1 : (pickEarlier acc y).created_at ≤ acc.created_at := by
      unfold pickEarlier
      split_ifs with hy
      · exact le_of_lt hy
      · exact le_refl _
    have hstep2 : (pickEarlier acc y).created_at ≤ y.created_at := by
      unfold pickEarlier
      split_ifs with hy
      · exact le_refl _
      · exact le_of_not_lt hy
    rcases List.mem_cons.mp hx with hx1 | hx2
    · rw [hx1]
      exact le_trans (ih (pickEarlier acc y) _ (List.mem_cons_self _ _)) hstep1
    rcases List.mem_cons.mp hx2 with hx3 | hx4
    · rw [hx3]
      exact le_trans (ih (pickEarlier acc y) _ (List.mem_cons_self _ _)) hstep2
    · exact ih (pickEarlier acc y) x (List.mem_cons_of_mem _ hx4)

theorem earliestLend_spec {ls : List Lend} {l : Lend} (h : earliestLend ls = some l) :
    l ∈ ls ∧ ∀ x ∈ ls, l.created_at ≤ x.created_at := by
  cases ls with
  | nil => simp [earliestLend] at h
  | cons a as =>
    have hl : l = as.foldl pickEarlier a := by
      have : some (as.foldl pickEarlier a) = some l := h
      exact (Option.some.inj this).symm
    subst hl
    exact ⟨foldl_pickEarlier_mem as a, fun x hx => foldl_pickEarlier_le as a x hx⟩

theorem earliestLend_ne_none {ls : List Lend} (h : ls ≠ []) :
    ∃ l, earliestLend ls = some l := by
  cases ls with
  | nil => exact absurd rfl h
  | cons a as => exact ⟨as.foldl pickEarlier a, rfl⟩

theorem releaseSum_nonneg {ts : List Lend} (h : ∀ l ∈ ts, 0 ≤ l.amount) (bid : Nat) :
    0 ≤ releaseSum ts bid := by
  apply List.sum_nonneg
  intro x hx
  obtain ⟨l, hl, rfl⟩ := List.mem_map.mp hx
  exact h l (List.mem_filter.mp hl).1

theorem map_ident (l : List α) : l.map (fun a => a) = l := by
  induction l with
  | nil => rfl
  | cons a l ih => simp [ih]

theorem book_set_lend_congr {b : Book} {x y : Int} (h : x = y) :
    ({ b with lend_amount := x } : Book) = { b with lend_amount := y } := by
  rw [h]

theorem updateFirst_by_id_eq_map {n : Nat} {f : Book → Book} {bs : List Book}
    (h : (bs.map Book.id).Nodup) :
    updateFirst (fun x => x.id == n) f bs = bs.map (fun x => if x.id == n then f x else x) := by
  induction bs with
  | nil => rfl
  | cons b bs ih =>
    simp only [List.map_cons, List.nodup_cons] at h
    by_cases hb : (b.id == n) = true
    · have hbid : b.id = n := by simpa using hb
      have hnone : ∀ x ∈ bs, ¬ (x.id == n) = true := by
        intro x hx hxn
        have hxid : x.id = n := by simpa using hxn
        exact h.1 (by rw [hbid, ← hxid]; exact List.mem_map_of_mem _ hx)
      show (if (b.id == n) = true then f b :: bs else b :: updateFirst (fun x => x.id == n) f bs)
        = (if (b.id == n) = true then f b else b) ::
          bs.map (fun x => if x.id == n then f x else x)
      rw [if_pos hb, if_pos hb]
      congr 1
      have hmap : ∀ x ∈ bs, (if (x.id == n) = true then f x else x) = x := by
        intro x hx
        rw [if_neg (hnone x hx)]
      rw [List.map_congr_left hmap, map_ident]
    · have hb' : (b.id == n) = false := by simpa using hb
      show (if (b.id == n) = true then f b :: bs else b :: updateFirst (fun x => x.id == n) f bs)
        = (if (b.id == n) = true then f b else b) ::
          bs.map (fun x => if x.id == n then f x else x)
      rw [if_neg hb, if_neg hb]
      rw [ih h.2]

theorem foldl_release_eq_map : ∀ (ts : List Lend) (bs : List Book),
    (bs.map Book.id).Nodup →
    (∀ l ∈ ts, 0 ≤ l.amount) →
    (∀ b ∈ bs, releaseSum ts b.id ≤ b.lend_amount) →
    ts.foldl releaseLendStock bs =
      bs.map (fun b => { b with lend_amount := b.lend_amount - releaseSum ts b.id }) := by
  intro ts
  induction ts with
  | nil =>
    intro bs _ _ _
    have hpt : ∀ b ∈ bs, (fun b : Book =>
        { b with lend_amount := b.lend_amount - releaseSum [] b.id }) b = (fun b : Book => b) b := by
      intro b _
      show ({ b with lend_amount := b.lend_amount - releaseSum [] b.id } : Book) = b
      have h0 : releaseSum [] b.id = 0 := rfl
      rw [h0, sub_zero]
    rw [List.foldl_nil, List.map_congr_left hpt, map_ident]
  | cons t ts ih =>
    intro bs hnodup hamts hsum
    rw [List.foldl_cons]
    have hamts' : ∀ l ∈ ts, 0 ≤ l.amount := fun l hl => hamts l (List.mem_cons_of_mem _ hl)
    have ht0 : 0 ≤ t.amount := hamts t (List.mem_cons_self _ _)
    by_cases hstat : (t.status != "returned") = true
    · by_cases hfind : (bs.find? (fun b => b.id == t.book_id)).isSome = true
      · -- the lend is outstanding and its book row exists: clamp-release it
        have hcond : (t.status != "returned" &&
            (bs.find? (fun b => b.id == t.book_id)).isSome) = true := by
          rw [Bool.and_eq_true]
          exact ⟨hstat, hfind⟩
        have hrel : releaseLendStock bs t = updateFirst (fun b => b.id == t.book_id)
            (fun b => { b with lend_amount := max (b.lend_amount - t.amount) 0 }) bs := by
          unfold releaseLendStock
          rw [if_pos hcond]
        have hcons : ∀ b : Book, b.id = t.book_id →
            releaseSum (t :: ts) b.id = t.amount + releaseSum ts b.id := by
          intro b hb
          unfold releaseSum
          rw [List.filter_cons]
          have hc : (t.status != "returned" && t.book_id == b.id) = true := by
            rw [Bool.and_eq_true]
            exact ⟨hstat, by simp [hb]⟩
          rw [if_pos hc, List.map_cons, List.sum_cons]
        have hskip : ∀ b : Book, b.id ≠ t.book_id →
            releaseSum (t :: ts) b.id = releaseSum ts b.id := by
          intro b hb
          unfold releaseSum
          rw [List.filter_cons]
          have hc : (t.status != "returned" && t.book_id == b.id) = false := by
            have hne : (t.book_id == b.id) = false := by
              simp only [beq_eq_false_iff_ne, ne_eq]
              exact fun hc => hb hc.symm
            rw [hne, Bool.and_false]
          rw [hc]
          simp
        rw [hrel, updateFirst_by_id_eq_map hnodup]
        have hGid : ∀ x : Book, ((fun x : Book => if x.id == t.book_id
            then { x with lend_amount := max (x.lend_amount - t.amount) 0 } else x) x).id
            = x.id := by
          intro x
          show (if x.id == t.book_id
            then ({ x with lend_amount := max (x.lend_amount - t.amount) 0 } : Book) else x).id
            = x.id
          by_cases hq : (x.id == t.book_id) = true
          · rw [if_pos hq]
          · rw [if_neg hq]
        have hnodup' : ((bs.map (fun x : Book => if x.id == t.book_id
            then { x with lend_amount := max (x.lend_amount - t.amount) 0 } else x)).map
            Book.id).Nodup := by
          rw [List.map_map]
          have hcomp : (Book.id ∘ (fun x : Book => if x.id == t.book_id
              then { x with lend_amount := max (x.lend_amount - t.amount) 0 } else x))
              = Book.id := funext fun x => hGid x
          rw [hcomp]
          exact hnodup
        have hsum' : ∀ b ∈ bs.map (fun x : Book => if x.id == t.book_id
            then { x with lend_amount := max (x.lend_amount - t.amount) 0 } else x),
            releaseSum ts b.id ≤ b.lend_amount := by
          intro b' hb'
          obtain ⟨x, hx, rfl⟩ := List.mem_map.mp hb'
          show releaseSum ts ((if x.id == t.book_id
              then ({ x with lend_amount := max (x.lend_amount - t.amount) 0 } : Book)
              else x)).id ≤
            ((if x.id == t.book_id
              then ({ x with lend_amount := max (x.lend_amount - t.amount) 0 } : Book)
              else x)).lend_amount
          by_cases hq : (x.id == t.book_id) = true
          · rw [if_pos hq]
            have hxid : x.id = t.book_id := by simpa using hq
            have h1 := hsum x hx
            rw [hcons x hxid] at h1
            have h2 : 0 ≤ releaseSum ts x.id := releaseSum_nonneg hamts' x.id
            show releaseSum ts x.id ≤ max (x.lend_amount - t.amount) 0
            have hmax : max (x.lend_amount - t.amount) 0 = x.lend_amount - t.amount :=
              max_eq_left (by omega)
            omega
          · rw [if_neg hq]
            have hxid : x.id ≠ t.book_id := by simpa using hq
            have h1 := hsum x hx
            rw [hskip x hxid] at h1
            exact h1
        rw [ih _ hnodup' hamts' hsum', List.map_map]
        apply List.map_congr_left
        intro b hb
        show (fun x : Book => { x with lend_amount := x.lend_amount - releaseSum ts x.id })
            (if b.id == t.book_id
              then ({ b with lend_amount := max (b.lend_amount - t.amount) 0 } : Book) else b)
          = { b with lend_amount := b.lend_amount - releaseSum (t :: ts) b.id }
        by_cases hq : (b.id == t.book_id) = true
        · rw [if_pos hq]
          have hbid : b.id = t.book_id := by simpa using hq
          have h1 := hsum b hb
          rw [hcons b hbid] at h1
          have h2 : 0 ≤ releaseSum ts b.id := releaseSum_nonneg hamts' b.id
          have hmax : max (b.lend_amount - t.amount) 0 = b.lend_amount - t.amount :=
            max_eq_left (by omega)
          refine book_set_lend_congr ?_
          rw [hmax, hcons b hbid]
          ring
        · rw [if_neg hq]
          have hbid : b.id ≠ t.book_id := by simpa using hq
          refine book_set_lend_congr ?_
          rw [hskip b hbid]
      · -- the referenced book row does not exist: no stock change for this lend
        have hrel : releaseLendStock bs t = bs := by
          unfold releaseLendStock
          rw [if_neg]
          intro hc
          rw [Bool.and_eq_true] at hc
          exact hfind hc.2
        have hnone : bs.find? (fun b => b.id == t.book_id) = none := by
          cases hres : bs.find? (fun b => b.id == t.book_id) with
          | none => rfl
          | some b0 => exact absurd (by rw [hres]; rfl) hfind
        have hskip : ∀ b ∈ bs, releaseSum (t :: ts) b.id = releaseSum ts b.id := by
          intro b hb
          unfold releaseSum
          rw [List.filter_cons]
          have hbne : (t.book_id == b.id) = false := by
            have hx := List.find?_eq_none.mp hnone b hb
            simp only [beq_eq_false_iff_ne, ne_eq]
            intro hc
            exact hx (by simp [hc])
          have hc : (t.status != "returned" && t.book_id == b.id) = false := by
            rw [hbne, Bool.and_false]
          rw [hc]
          simp
        have hsum' : ∀ b ∈ bs, releaseSum ts b.id ≤ b.lend_amount := by
          intro b hb
          rw [← hskip b hb]
          exact hsum b hb
        rw [hrel, ih bs hnodup hamts' hsum']
        apply List.map_congr_left
        intro b hb
        show ({ b with lend_amount := b.lend_amount - releaseSum ts b.id } : Book)
          = { b with lend_amount := b.lend_amount - releaseSum (t :: ts) b.id }
        rw [hskip b hb]
    · -- the lend is already returned: no stock change
      have hrel : releaseLendStock bs t = bs := by
        unfold releaseLendStock
        rw [if_neg]
        intro hc
        rw [Bool.and_eq_true] at hc
        exact hstat hc.1
      have hskip : ∀ bid : Nat, releaseSum (t :: ts) bid = releaseSum ts bid := by
        intro bid
        unfold releaseSum
        rw [List.filter_cons]
        have hs : (t.status != "returned") = false := by
          simpa using hstat
        have hc : (t.status != "returned" && t.book_id == bid) = false := by
          rw [hs, Bool.false_and]
        rw [hc]
        simp
      have hsum' : ∀ b ∈ bs, releaseSum ts b.id ≤ b.lend_amount := by
        intro b hb
        rw [← hskip b.id]
        exact hsum b hb
      rw [hrel, ih bs hnodup hamts' hsum']
      apply List.map_congr_left
      intro b _
      show ({ b with lend_amount := b.lend_amount - releaseSum ts b.id } : Book)
        = { b with lend_amount := b.lend_amount - releaseSum (t :: ts) b.id }
      rw [hskip b.id]

/-- Every handler invocation preserves the inventory invariant, under the
admissibility side conditions. -/
theorem inv_step {s : LibState} {op : Op} (h : Inv s) (ha : Admissible s op) :
    Inv (step s op) := by
  cases op with
  | createBook nm ib am la => exact inv_create h ha
  | updateBook bid nm ib am lf => exact inv_update h ha
  | borrowOp c i q dd now u => exact inv_borrow h ha
  | returnOp c i q now u => exact inv_return_book h ha
  | returnById lid now u => exact inv_return_from_record h
  | backfill sd ed ex roll rc bc dc oc duc rdc roc sa => exact inv_backfill h
  | batchDelete sa => exact inv_batch_delete h

theorem inv_steps : ∀ (ops : List Op) (s : LibState), Inv s → StepsOk s ops →
    Inv (steps s ops) := by
  intro ops
  induction ops with
  | nil => intro s h _; exact h
  | cons op ops ih =>
    intro s h hok
    exact ih (step s op) (inv_step h hok.1) hok.2

/-! ### Further helper lemmas for the claim theorems -/

theorem updateFirst_mem_updated {p : α → Bool} (f : α → α) {l : List α} {a : α}
    (h : l.find? p = some a) : f a ∈ updateFirst p f l := by
  obtain ⟨l₁, l₂, _, _, hUpd⟩ := updateFirst_decomp f h
  rw [hUpd]
  exact List.mem_append_right _ (List.mem_cons_self _ _)

theorem mem_or_updated_mem {p : α → Bool} (f : α → α) {l : List α} {a : α}
    (ha : a ∈ l) (hpa : p a = true) :
    a ∈ updateFirst p f l ∨ f a ∈ updateFirst p f l := by
  induction l with
  | nil => simp at ha
  | cons b bs ih =>
    by_cases hb : p b = true
    · simp only [updateFirst, hb, if_pos]
      rcases List.mem_cons.mp ha with h1 | h1
      · subst h1
        exact Or.inr (List.mem_cons_self _ _)
      · exact Or.inl (List.mem_cons_of_mem _ h1)
    · have hb' : p b = false := by simpa using hb
      simp only [updateFirst, hb', Bool.false_eq_true, if_false]
      rcases List.mem_cons.mp ha with h1 | h1
      · subst h1
        exact absurd hpa hb
      · rcases ih h1 with h2 | h2
        · exact Or.inl (List.mem_cons_of_mem _ h2)
        · exact Or.inr (List.mem_cons_of_mem _ h2)

theorem find?_id_of_nodup {l : List Lend} (h : (l.map Lend.id).Nodup) {x : Lend}
    (hx : x ∈ l) : l.find? (fun y => y.id == x.id) = some x := by
  induction l with
  | nil => simp at hx
  | cons a as ih =>
    simp only [List.map_cons, List.nodup_cons] at h
    rcases List.mem_cons.mp hx with h1 | h1
    · subst h1
      simp [List.find?_cons]
    · have hne : (a.id == x.id) = false := by
        simp only [beq_eq_false_iff_ne, ne_eq]
        intro hc
        exact h.1 (hc ▸ List.mem_map_of_mem Lend.id h1)
      rw [List.find?_cons]
      simp only [hne, Bool.false_eq_true, if_false]
      exact ih h.2 h1

theorem sum_le_sum_books {l : List Book} {f g : Book → Int}
    (h : ∀ b ∈ l, f b ≤ g b) : (l.map f).sum ≤ (l.map g).sum := by
  induction l with
  | nil => simp
  | cons a as ih =>
    simp only [List.map_cons, List.sum_cons]
    exact add_le_add (h a (List.mem_cons_self _ _))
      (ih (fun b hb => h b (List.mem_cons_of_mem _ hb)))

theorem sum_lt_sum_of_mem {l : List Book} {f g : Book → Int}
    (hle : ∀ b ∈ l, f b ≤ g b) {x : Book} (hx : x ∈ l) (hlt : f x < g x) :
    (l.map f).sum < (l.map g).sum := by
  induction l with
  | nil => simp at hx
  | cons a as ih =>
    simp only [List.map_cons, List.sum_cons]
    rcases List.mem_cons.mp hx with h1 | h1
    · subst h1
      exact add_lt_add_of_lt_of_le hlt
        (sum_le_sum_books (fun b hb => hle b (List.mem_cons_of_mem _ hb)))
    · exact add_lt_add_of_le_of_lt (hle a (List.mem_cons_self _ _))
        (ih (fun b hb => hle b (List.mem_cons_of_mem _ hb)) h1)

/-! ### Claim theorems -/

/-- C1 (amended).  For every book that is not soft-deleted,
`0 ≤ lend_amount ≤ amount` holds in every state reached from an
invariant-satisfying state by any sequence of book-create, book-edit,
borrow, return, return-by-record-id, backfill-generate and batch-delete
operations, *provided* each borrow/return request carries a positive
quantity and each book create/edit submits a `lend_amount` within
`[0, amount]`; the handlers themselves enforce none of these request-level
conditions. -/
theorem c1_inventory_invariant_preserved :
    ∀ (s : LibState) (ops : List Op), Inv s → StepsOk s ops →
      ∀ b ∈ (steps s ops).books, b.is_deleted = false →
        0 ≤ b.lend_amount ∧ b.lend_amount ≤ b.amount := by
  intro s ops h hok b hb hdel
  exact (inv_steps ops s h hok).2.2.1 b hb (by simp [hdel])

/-- Witness for C1: after creating a book (`amount = 3`, `lend_amount = 1`)
and a borrow attempt on the empty database, the surviving book satisfies the
invariant. -/
theorem c1_witness :
    0 ≤ (⟨1, "i", "b", 3, 1, false⟩ : Book).lend_amount ∧
      (⟨1, "i", "b", 3, 1, false⟩ : Book).lend_amount ≤
        (⟨1, "i", "b", 3, 1, false⟩ : Book).amount :=
  c1_inventory_invariant_preserved emptyState c1WitnessOps (by decide) (by decide)
    ⟨1, "i", "b", 3, 1, false⟩ (by decide) (by decide)

/-- Counterexample for C1 as stated: `create_book` stores the submitted
`lend_amount` without validating it against `amount`, so a single
book-create on the empty database reaches a state where a non-deleted book
has `lend_amount = 2 > 1 = amount`. -/
theorem c1_counterexample :
    ∃ b ∈ (steps emptyState [Op.createBook "b" "i" 1 2]).books,
      b.is_deleted = false ∧ b.amount < b.lend_amount := by
  decide

/-- C2 (amended).  With patron and item resolved, Borrow fails with
`InsufficientStock` and performs no writes exactly when
`availableCopies < quantity`; otherwise — including non-positive
quantities, which the handler does not reject — it succeeds, appends
exactly one Outstanding loan with `due_date = now + days·86400`, adds the
quantity to the item's `lend_amount`, and creates no return row. -/
theorem c2_borrow_contract (s : LibState) (card isbn : String) (q dd now : Int)
    (u : Nat) (reader : Reader) (book : Book)
    (hr : find_reader_by_card s card = some reader)
    (hb : find_book_by_isbn s isbn = some book) :
    (available_amount book < q →
      borrow s card isbn q dd now u = (.insufficientStock, s)) ∧
    (¬ available_amount book < q →
      (borrow s card isbn q dd now u).1 = .success s.next_lend_id ∧
      (borrow s card isbn q dd now u).2.lends = s.lends ++
        [{ id := s.next_lend_id, book_id := book.id, reader_id := reader.id, amount := q,
           due_date := now + dd * 86400, status := "lent", created_at := now,
           borrow_operator_id := some u, return_operator_id := none, is_deleted := false }] ∧
      find_book_by_isbn (borrow s card isbn q dd now u).2 isbn
        = some { book with lend_amount := book.lend_amount + q } ∧
      (borrow s card isbn q dd now u).2.returns = s.returns) := by
  constructor
  · intro hav
    unfold borrow
    rw [hr]
    dsimp only
    rw [hb]
    dsimp only
    rw [if_pos hav]
  · intro hav
    have hx : borrow s card isbn q dd now u = (.success s.next_lend_id,
        { s with
            books := updateFirst (bookMatches isbn)
              (fun b => { b with lend_amount := b.lend_amount + q }) s.books
            lends := s.lends ++
              [{ id := s.next_lend_id, book_id := book.id, reader_id := reader.id, amount := q,
                 due_date := now + dd * 86400, status := "lent", created_at := now,
                 borrow_operator_id := some u, return_operator_id := none,
                 is_deleted := false }]
            next_lend_id := s.next_lend_id + 1 }) := by
      unfold borrow
      rw [hr]
      dsimp only
      rw [hb]
      dsimp only
      rw [if_neg hav]
    have hbfind : s.books.find? (bookMatches isbn) = some book := hb
    have hpb : bookMatches isbn book = true := List.find?_some hbfind
    have hpfb : bookMatches isbn { book with lend_amount := book.lend_amount + q } = true := hpb
    refine ⟨by rw [hx], by rw [hx], ?_, by rw [hx]⟩
    rw [hx]
    exact find?_updateFirst_self hbfind hpfb

/-- Witness for C2: on a book with `amount = 2`, `lend_amount = 1`
(one available copy), a borrow of quantity 5 fails with `InsufficientStock`
and leaves the state unchanged. -/
theorem c2_witness :
    borrow (oneBookReaderState 2 1) "c" "i" 5 30 0 7
      = (.insufficientStock, oneBookReaderState 2 1) :=
  (c2_borrow_contract (oneBookReaderState 2 1) "c" "i" 5 30 0 7
    ⟨1, "c", false⟩ ⟨1, "i", "b", 2, 1, false⟩ (by decide) (by decide)).1 (by decide)

/-- Counterexample for C2 as stated: the handler never checks that the
quantity is positive — a borrow of quantity 0 against an item with zero
available copies succeeds instead of failing with `InsufficientStock`. -/
theorem c2_counterexample :
    ¬ (0 : Int) > 0 ∧
    (borrow (oneBookReaderState 0 0) "c" "i" 0 30 100 7).1 = BorrowResult.success 1 := by
  decide

/-- C3 (confirmed).  With patron and item resolved, the return-by-card/ISBN
query selects a loan of the matching item+patron pair that is `lent` and
not soft-deleted with the earliest `created_at` among them (FIFO), and when
no such loan exists the handler fails with `NoOutstandingLoan` and changes
nothing. -/
theorem c3_fifo_selection (s : LibState) (card isbn : String) (q now : Int)
    (u : Nat) (reader : Reader) (book : Book)
    (hr : find_reader_by_card s card = some reader)
    (hb : find_book_by_isbn s isbn = some book) :
    (s.lends.filter (outstandingFor reader book) ≠ [] →
      ∃ lend, find_outstanding_lend s reader book = some lend) ∧
    (∀ lend, find_outstanding_lend s reader book = some lend →
      lend ∈ s.lends.filter (outstandingFor reader book) ∧
      ∀ x ∈ s.lends.filter (outstandingFor reader book),
        lend.created_at ≤ x.created_at) ∧
    (s.lends.filter (outstandingFor reader book) = [] →
      return_book s card isbn q now u = (.noOutstandingLoan, s)) := by
  refine ⟨?_, ?_, ?_⟩
  · intro hne
    unfold find_outstanding_lend
    exact earliestLend_ne_none hne
  · intro lend hlend
    unfold find_outstanding_lend at hlend
    exact earliestLend_spec hlend
  · intro hfil
    have hnone : find_outstanding_lend s reader book = none := by
      unfold find_outstanding_lend
      rw [hfil]
      rfl
    unfold return_book
    rw [hr]
    dsimp only
    rw [hb]
    dsimp only
    rw [hnone]

/-- Witness for C3: among three outstanding loans of the same pair created
at times 30, 10 and 20, the query selects the one created at time 10. -/
theorem c3_witness :
    (⟨2, 1, 1, 1, 1000, "lent", 10, some 7, none, false⟩ : Lend) ∈
      threeLendState.lends.filter
        (outstandingFor ⟨1, "c", false⟩ ⟨1, "i", "b", 5, 3, false⟩) ∧
    ∀ x ∈ threeLendState.lends.filter
        (outstandingFor ⟨1, "c", false⟩ ⟨1, "i", "b", 5, 3, false⟩),
      (⟨2, 1, 1, 1, 1000, "lent", 10, some 7, none, false⟩ : Lend).created_at
        ≤ x.created_at :=
  (c3_fifo_selection threeLendState "c" "i" 1 0 7
    ⟨1, "c", false⟩ ⟨1, "i", "b", 5, 3, false⟩ (by decide) (by decide)).2.1
    ⟨2, 1, 1, 1, 1000, "lent", 10, some 7, none, false⟩ (by decide)

/-- C4 (confirmed).  A successful return by card/ISBN with entered quantity
`q` marks the selected loan `Returned` in full — the loan row keeps its
original quantity and only its status changes — regardless of whether `q`
matches that quantity, and sets the item's `lend_amount` to
`max(lend_amount - q, 0)`; the operation succeeds for every `q`. -/
theorem c4_full_return_clamped_release (s : LibState) (card isbn : String)
    (q now : Int) (u : Nat) (reader : Reader) (book : Book) (lend : Lend)
    (hr : find_reader_by_card s card = some reader)
    (hb : find_book_by_isbn s isbn = some book)
    (hl : find_outstanding_lend s reader book = some lend)
    (hnd : (s.lends.map Lend.id).Nodup) :
    (return_book s card isbn q now u).1 = .success ∧
    ({ lend with status := "returned", return_operator_id := some u }
      ∈ (return_book s card isbn q now u).2.lends) ∧
    find_book_by_isbn (return_book s card isbn q now u).2 isbn
      = some { book with lend_amount := max (book.lend_amount - q) 0 } := by
  have hx : return_book s card isbn q now u = (.success,
      { s with
          lends := updateFirst (fun l => l.id == lend.id)
            (fun l => { l with status := "returned", return_operator_id := some u }) s.lends
          books := updateFirst (bookMatches isbn)
            (fun b => { b with lend_amount := max (b.lend_amount - q) 0 }) s.books
          returns := s.returns ++
            [{ id := s.next_return_id, lend_id := lend.id, amount := q,
               operator_id := some u, created_at := now, is_deleted := false }]
          next_return_id := s.next_return_id + 1 }) := by
    unfold return_book
    rw [hr]
    dsimp only
    rw [hb]
    dsimp only
    rw [hl]
  have hmem : lend ∈ s.lends := by
    unfold find_outstanding_lend at hl
    exact (List.mem_filter.mp (earliestLend_spec hl).1).1
  have hfind : s.lends.find? (fun y => y.id == lend.id) = some lend :=
    find?_id_of_nodup hnd hmem
  have hbfind : s.books.find? (bookMatches isbn) = some book := hb
  refine ⟨by rw [hx], ?_, ?_⟩
  · rw [hx]
    exact updateFirst_mem_updated _ hfind
  · rw [hx]
    have hpb : bookMatches isbn book = true := List.find?_some hbfind
    exact find?_updateFirst_self hbfind
      (show bookMatches isbn { book with lend_amount := max (book.lend_amount - q) 0 } = true
        from hpb)

/-- Witness for C4: returning quantity 5 against an outstanding loan of
quantity 2 succeeds and clamps the book's `lend_amount` from 2 to 0. -/
theorem c4_witness :
    find_book_by_isbn (return_book oneLendState "c" "i" 5 60 7).2 "i"
      = some ⟨1, "i", "b", 5, max ((2 : Int) - 5) 0, false⟩ :=
  (c4_full_return_clamped_release oneLendState "c" "i" 5 60 7
    ⟨1, "c", false⟩ ⟨1, "i", "b", 5, 2, false⟩
    ⟨1, 1, 1, 2, 1000, "lent", 5, some 7, none, false⟩
    (by decide) (by decide) (by decide) (by decide)).2.2

/-- C5 (amended).  Every `ReturnRecord` created by `return_from_record` or
by the backfill generator references a loan row of the resulting state with
exactly the same quantity (hence never exceeding it); the return-by-card
path copies the operator-entered quantity without validation and is
excluded. -/
theorem c5_returnrecord_quantity :
    (∀ (s : LibState) (lid : Nat) (now : Int) (u : Nat),
      ReturnsConsistent s (return_from_record s lid now u).2) ∧
    (∀ (s : LibState) (sd ed : Nat) (ex : List Nat) (rk : Reader → Bool) (roll : Bool)
      (rc bc dc oc duc rdc roc sa : Nat),
      ReturnsConsistent s (execute_test_data s sd ed ex rk roll rc bc dc oc duc rdc roc sa).2) := by
  constructor
  · intro s lid now u
    unfold return_from_record
    cases hfind : s.lends.find? (fun l => l.id == lid && !l.is_deleted) with
    | none => intro r hrm; exact Or.inl hrm
    | some lend =>
      dsimp only
      split_ifs with hst
      · intro r hrm; exact Or.inl hrm
      · intro r hrm
        rcases List.mem_append.mp hrm with hrm | hrm
        · exact Or.inl hrm
        · obtain rfl := List.mem_singleton.mp hrm
          have hmem : lend ∈ s.lends := List.mem_of_find?_eq_some hfind
          have hp : (fun l : Lend => l.id == lend.id) lend = true := by simp
          rcases mem_or_updated_mem (p := fun l => l.id == lend.id)
              (fun l => { l with status := "returned", return_operator_id := some u })
              hmem hp with h2 | h2
          · exact Or.inr ⟨lend, h2, rfl, rfl⟩
          · exact Or.inr ⟨_, h2, rfl, rfl⟩
  · intro s sd ed ex rk roll rc bc dc oc duc rdc roc sa
    unfold execute_test_data
    by_cases hrange : sd > ed
    · rw [if_pos hrange]
      intro r hrm; exact Or.inl hrm
    · rw [if_neg hrange]
      cases hre : pickRandomRow (s.readers.filter (fun r => !r.is_deleted && rk r)) rc with
      | none => intro r hrm; exact Or.inl hrm
      | some reader =>
        dsimp only
        cases hbk : pickRandomRow
            (s.books.filter (fun b => !b.is_deleted && b.lend_amount < b.amount)) bc with
        | none => intro r hrm; exact Or.inl hrm
        | some book =>
          dsimp only
          cases hba : pick_random_datetime sd ed ex none dc oc with
          | none => intro r hrm; exact Or.inl hrm
          | some borrow_at =>
            dsimp only
            by_cases hroll : roll = true
            · rw [if_pos hroll]
              cases hrt : pick_random_datetime (borrow_at / 86400) ed ex
                  (some (borrow_at + 600)) rdc roc with
              | some return_at =>
                dsimp only
                intro r hrm
                rcases List.mem_append.mp hrm with hrm | hrm
                · exact Or.inl hrm
                · obtain rfl := List.mem_singleton.mp hrm
                  exact Or.inr ⟨_, List.mem_append_right _ (List.mem_singleton_self _),
                    rfl, rfl⟩
              | none =>
                dsimp only
                intro r hrm; exact Or.inl hrm
            · rw [if_neg hroll]
              intro r hrm; exact Or.inl hrm

/-- Witness for C5: the consistency property holds for a concrete
return-by-record-id run. -/
theorem c5_witness :
    ReturnsConsistent oneLendState (return_from_record oneLendState 1 60 7).2 :=
  c5_returnrecord_quantity.1 oneLendState 1 60 7

/-- Counterexample for C5 as stated: returning quantity 5 by card/ISBN
against a loan of quantity 2 creates a `ReturnRecord` whose quantity
exceeds the referenced loan's quantity. -/
theorem c5_counterexample :
    ∃ r ∈ (return_book oneLendState "c" "i" 5 60 7).2.returns,
      ∀ l ∈ (return_book oneLendState "c" "i" 5 60 7).2.lends,
        l.id = r.lend_id → l.amount < r.amount := by
  decide

/-- C6 (confirmed).  `return_from_record` on a loan whose status is not
`lent` reports `AlreadyReturned` (a warning) and leaves the state
untouched; consequently, after a borrow of quantity 1, returning the
resulting loan by record id twice makes the second call fail
`AlreadyReturned` while the book's `lend_amount` ends up decremented
exactly once (back to its pre-borrow value). -/
theorem c6_already_returned_guard :
    (∀ (s : LibState) (lid : Nat) (now : Int) (u : Nat) (lend : Lend),
      s.lends.find? (fun l => l.id == lid && !l.is_deleted) = some lend →
      lend.status ≠ "lent" →
      return_from_record s lid now u = (.alreadyReturned, s)) ∧
    (∀ (a l t1 t2 t3 : Int) (u : Nat), 0 ≤ l → l + 1 ≤ a →
      (borrow (oneBookReaderState a l) "c" "i" 1 30 t1 u).1 = .success 1 ∧
      (return_from_record (borrow (oneBookReaderState a l) "c" "i" 1 30 t1 u).2 1 t2 u).1
        = .success ∧
      return_from_record
          (return_from_record (borrow (oneBookReaderState a l) "c" "i" 1 30 t1 u).2 1 t2 u).2
          1 t3 u
        = (.alreadyReturned,
           (return_from_record (borrow (oneBookReaderState a l) "c" "i" 1 30 t1 u).2 1 t2 u).2) ∧
      Option.map Book.lend_amount
          (find_book_by_isbn
            (return_from_record (borrow (oneBookReaderState a l) "c" "i" 1 30 t1 u).2 1 t2 u).2
            "i")
        = some l) := by
  constructor
  · intro s lid now u lend hfind hst
    unfold return_from_record
    rw [hfind]
    dsimp only
    rw [if_pos (bne_iff_ne.mpr hst)]
  · intro a l t1 t2 t3 u hl0 hla
    have hav : ¬ available_amount ⟨1, "i", "b", a, l, false⟩ < 1 := by
      show ¬ max (a - l) 0 < 1
      push_neg
      exact le_trans (by omega) (le_max_left _ _)
    have hr : find_reader_by_card (oneBookReaderState a l) "c" = some ⟨1, "c", false⟩ := rfl
    have hb : find_book_by_isbn (oneBookReaderState a l) "i"
        = some ⟨1, "i", "b", a, l, false⟩ := rfl
    have hs1 : borrow (oneBookReaderState a l) "c" "i" 1 30 t1 u = (.success 1,
        { books := [⟨1, "i", "b", a, l + 1, false⟩], readers := [⟨1, "c", false⟩],
          lends := [⟨1, 1, 1, 1, t1 + 30 * 86400, "lent", t1, some u, none, false⟩],
          returns := [],
          next_book_id := 2, next_lend_id := 2, next_return_id := 1 }) := by
      unfold borrow
      rw [hr]
      dsimp only
      rw [hb]
      dsimp only
      rw [if_neg hav]
      rfl
    have hs2 : return_from_record
        ({ books := [⟨1, "i", "b", a, l + 1, false⟩], readers := [⟨1, "c", false⟩],
           lends := [⟨1, 1, 1, 1, t1 + 30 * 86400, "lent", t1, some u, none, false⟩],
           returns := [],
           next_book_id := 2, next_lend_id := 2, next_return_id := 1 } : LibState) 1 t2 u
        = (.success,
        { books := [⟨1, "i", "b", a, max (l + 1 - 1) 0, false⟩], readers := [⟨1, "c", false⟩],
          lends := [⟨1, 1, 1, 1, t1 + 30 * 86400, "returned", t1, some u, some u, false⟩],
          returns := [⟨1, 1, 1, some u, t2, false⟩],
          next_book_id := 2, next_lend_id := 2, next_return_id := 2 }) := rfl
    have hs3 : return_from_record
        ({ books := [⟨1, "i", "b", a, max (l + 1 - 1) 0, false⟩], readers := [⟨1, "c", false⟩],
           lends := [⟨1, 1, 1, 1, t1 + 30 * 86400, "returned", t1, some u, some u, false⟩],
           returns := [⟨1, 1, 1, some u, t2, false⟩],
           next_book_id := 2, next_lend_id := 2, next_return_id := 2 } : LibState) 1 t3 u
        = (.alreadyReturned,
        { books := [⟨1, "i", "b", a, max (l + 1 - 1) 0, false⟩], readers := [⟨1, "c", false⟩],
          lends := [⟨1, 1, 1, 1, t1 + 30 * 86400, "returned", t1, some u, some u, false⟩],
          returns := [⟨1, 1, 1, some u, t2, false⟩],
          next_book_id := 2, next_lend_id := 2, next_return_id := 2 }) := rfl
    rw [hs1]
    dsimp only
    rw [hs2]
    dsimp only
    refine ⟨rfl, rfl, hs3, ?_⟩
    have hmax : max (l + 1 - 1) 0 = l := by
      have harith : l + 1 - 1 = l := by ring
      rw [harith]
      exact max_eq_left hl0
    show some (max (l + 1 - 1) 0) = some l
    rw [hmax]

/-- Witness for C6: the borrow/double-return scenario at
`amount = 2, lend_amount = 0`. -/
theorem c6_witness :
    (borrow (oneBookReaderState 2 0) "c" "i" 1 30 0 7).1 = .success 1 ∧
    (return_from_record (borrow (oneBookReaderState 2 0) "c" "i" 1 30 0 7).2 1 0 7).1
      = .success ∧
    return_from_record
        (return_from_record (borrow (oneBookReaderState 2 0) "c" "i" 1 30 0 7).2 1 0 7).2
        1 0 7
      = (.alreadyReturned,
         (return_from_record (borrow (oneBookReaderState 2 0) "c" "i" 1 30 0 7).2 1 0 7).2) ∧
    Option.map Book.lend_amount
        (find_book_by_isbn
          (return_from_record (borrow (oneBookReaderState 2 0) "c" "i" 1 30 0 7).2 1 0 7).2
          "i")
      = some 0 :=
  c6_already_returned_guard.2 2 0 0 0 0 7 (by norm_num) (by norm_num)

/-- C7 (amended).  The three windowed dashboard buckets are pairwise
disjoint and loans that are `Returned` or soft-deleted contribute to no
bucket, but measured in days overdue each window `(min, max)` is
exclusive-low / inclusive-high (`min·86400 < now - due_date ≤ max·86400`),
so a loan overdue exactly 180 days counts in the 30–180 window, and the
`[365, ∞)` bucket (`due_date ≤ now - 365·86400`, inclusive) overlaps the
180–365 window at exactly 365 days overdue. -/
theorem c7_overdue_bucket_boundaries (l : Lend) (now : Int) :
    (¬ (overdueBetween 180 365 now l = true ∧ overdueBetween 30 180 now l = true)) ∧
    (¬ (overdueBetween 30 180 now l = true ∧ overdueBetween 0 30 now l = true)) ∧
    (¬ (overdueBetween 180 365 now l = true ∧ overdueBetween 0 30 now l = true)) ∧
    (l.status = "returned" ∨ l.is_deleted = true →
      overdueAtLeast 365 now l = false ∧ overdueBetween 180 365 now l = false ∧
      overdueBetween 30 180 now l = false ∧ overdueBetween 0 30 now l = false) ∧
    (∀ mn mx : Int, overdueBetween mn mx now l = true ↔
      (l.status = "lent" ∧ l.is_deleted = false ∧
        mn * 86400 < now - l.due_date ∧ now - l.due_date ≤ mx * 86400)) ∧
    (overdueAtLeast 365 now l = true ↔
      (l.status = "lent" ∧ l.is_deleted = false ∧ 365 * 86400 ≤ now - l.due_date)) := by
  have hchar : ∀ mn mx : Int, overdueBetween mn mx now l = true ↔
      (l.status = "lent" ∧ l.is_deleted = false ∧
        mn * 86400 < now - l.due_date ∧ now - l.due_date ≤ mx * 86400) := by
    intro mn mx
    unfold overdueBetween
    simp only [Bool.and_eq_true, beq_iff_eq, decide_eq_true_eq, Bool.not_eq_true']
    constructor
    · rintro ⟨⟨⟨hs, h1⟩, h2⟩, hd⟩
      exact ⟨hs, hd, by omega, by omega⟩
    · rintro ⟨hs, hd, h1, h2⟩
      exact ⟨⟨⟨hs, by omega⟩, by omega⟩, hd⟩
  have hat : overdueAtLeast 365 now l = true ↔
      (l.status = "lent" ∧ l.is_deleted = false ∧ 365 * 86400 ≤ now - l.due_date) := by
    unfold overdueAtLeast
    simp only [Bool.and_eq_true, beq_iff_eq, decide_eq_true_eq, Bool.not_eq_true']
    constructor
    · rintro ⟨⟨hs, h1⟩, hd⟩
      exact ⟨hs, hd, by omega⟩
    · rintro ⟨hs, hd, h1⟩
      exact ⟨⟨hs, by omega⟩, hd⟩
  refine ⟨?_, ?_, ?_, ?_, hchar, hat⟩
  · rintro ⟨hA, hB⟩
    rw [hchar] at hA hB
    obtain ⟨_, _, ha1, ha2⟩ := hA
    obtain ⟨_, _, hb1, hb2⟩ := hB
    omega
  · rintro ⟨hA, hB⟩
    rw [hchar] at hA hB
    obtain ⟨_, _, ha1, ha2⟩ := hA
    obtain ⟨_, _, hb1, hb2⟩ := hB
    omega
  · rintro ⟨hA, hB⟩
    rw [hchar] at hA hB
    obtain ⟨_, _, ha1, ha2⟩ := hA
    obtain ⟨_, _, hb1, hb2⟩ := hB
    omega
  · intro h
    have hno : ¬ (l.status = "lent" ∧ l.is_deleted = false) := by
      rintro ⟨hs, hd⟩
      rcases h with h | h
      · rw [h] at hs
        exact absurd hs (by decide)
      · rw [h] at hd
        exact absurd hd (by decide)
    refine ⟨?_, ?_, ?_, ?_⟩
    · rw [Bool.eq_false_iff]
      intro ht
      obtain ⟨hs, hd, _⟩ := hat.mp ht
      exact hno ⟨hs, hd⟩
    · rw [Bool.eq_false_iff]
      intro ht
      obtain ⟨hs, hd, _⟩ := (hchar 180 365).mp ht
      exact hno ⟨hs, hd⟩
    · rw [Bool.eq_false_iff]
      intro ht
      obtain ⟨hs, hd, _⟩ := (hchar 30 180).mp ht
      exact hno ⟨hs, hd⟩
    · rw [Bool.eq_false_iff]
      intro ht
      obtain ⟨hs, hd, _⟩ := (hchar 0 30).mp ht
      exact hno ⟨hs, hd⟩

/-- Witness for C7: a loan overdue exactly 100 days counts in the 30–180
window. -/
theorem c7_witness :
    overdueBetween 30 180 8640000 ⟨1, 1, 1, 1, 0, "lent", 0, none, none, false⟩ = true :=
  ((c7_overdue_bucket_boundaries ⟨1, 1, 1, 1, 0, "lent", 0, none, none, false⟩
    8640000).2.2.2.2.1 30 180).mpr (by decide)

/-- Counterexample for C7 as stated: a loan overdue exactly 365 days
(`due_date = now - 365·86400`) is counted both by the `[365, ∞)` query
(`due_date <= deadline`, inclusive) and by the 180–365 window query
(`due_date >= min_deadline`, also inclusive at 365), so the dashboard
buckets are not pairwise disjoint; moreover a loan overdue exactly 180
days falls in the 30–180 window, not the 180–365 one. -/
theorem c7_counterexample :
    overdueAtLeast 365 31536000 ⟨1, 1, 1, 1, 0, "lent", 0, none, none, false⟩ = true ∧
    overdueBetween 180 365 31536000 ⟨1, 1, 1, 1, 0, "lent", 0, none, none, false⟩ = true ∧
    get_overdue_count overdueState 365 31536000 = 1 ∧
    get_overdue_between overdueState 180 365 31536000 = 1 ∧
    overdueBetween 180 365 15552000 ⟨1, 1, 1, 1, 0, "lent", 0, none, none, false⟩ = false ∧
    overdueBetween 30 180 15552000 ⟨1, 1, 1, 1, 0, "lent", 0, none, none, false⟩ = true := by
  decide

/-- C8 (code bug).  `_pick_random_datetime` applies the `min_datetime`
lower bound only when the randomly chosen day equals `min_datetime`'s
calendar date.  When a synthetic borrow happens within ten minutes of
midnight, `borrowedAt + 10 minutes` falls on the next day, so choosing the
borrow day itself produces a synthetic `returnedAt` earlier than
`borrowedAt + 10 minutes` — here `returnedAt = 0` (day 0, 00:00:00) for a
loan borrowed at second 86100 (day 0, 23:55:00). -/
theorem c8_synthetic_return_precedes_borrow :
    pick_random_datetime 0 1 [] (some 86700) 0 0 = some 0 ∧
    (execute_test_data backfillState 0 1 [] (fun _ => true) true
        0 0 0 86100 0 0 0 9).2.lends.map Lend.created_at = [(86100 : Int)] ∧
    (execute_test_data backfillState 0 1 [] (fun _ => true) true
        0 0 0 86100 0 0 0 9).2.returns.map ReturnRecord.created_at = [(0 : Int)] ∧
    (0 : Int) < 86100 + 600 := by
  decide

/-- C9 (confirmed, under the stock-consistency precondition).  Deleting the
synthetic operator's data removes exactly the return rows and loan rows
attributed to it, and maps every book's `lend_amount` to
`lend_amount - Σ(quantities of its deleted still-outstanding synthetic
loans)` — no change for already-returned synthetic loans and no increase
anywhere — provided each book's `lend_amount` covers that sum (as it does
when the outstanding synthetic loans' reservations are actually reflected
in the stock). -/
theorem c9_batch_delete_reverses_synthetic (s : LibState) (sa : Nat)
    (hnd : (s.books.map Book.id).Nodup)
    (hamts : ∀ l ∈ s.lends, 0 ≤ l.amount)
    (hsum : ∀ b ∈ s.books,
      releaseSum (s.lends.filter (syntheticLend sa)) b.id ≤ b.lend_amount) :
    (∀ r : ReturnRecord, r ∈ (delete_super_admin_data s sa).1.returns ↔
      (r ∈ s.returns ∧ ¬ r.operator_id = some sa)) ∧
    (∀ l : Lend, l ∈ (delete_super_admin_data s sa).1.lends ↔
      (l ∈ s.lends ∧ ¬ (l.borrow_operator_id = some sa ∨ l.return_operator_id = some sa))) ∧
    ((delete_super_admin_data s sa).1.books = s.books.map (fun b =>
      { b with lend_amount := b.lend_amount
          - releaseSum (s.lends.filter (syntheticLend sa)) b.id })) ∧
    (∀ b ∈ s.books, 0 ≤ releaseSum (s.lends.filter (syntheticLend sa)) b.id) := by
  have hfl : ∀ l ∈ s.lends.filter (syntheticLend sa), 0 ≤ l.amount :=
    fun l hl => hamts l (List.mem_filter.mp hl).1
  refine ⟨?_, ?_, ?_, ?_⟩
  · intro r
    show r ∈ s.returns.filter (fun r => !(r.operator_id == some sa)) ↔ _
    rw [List.mem_filter]
    simp
  · intro l
    show l ∈ s.lends.filter (fun l => !(syntheticLend sa l)) ↔ _
    rw [List.mem_filter]
    unfold syntheticLend
    simp [not_or]
  · show (s.lends.filter (syntheticLend sa)).foldl releaseLendStock s.books = _
    exact foldl_release_eq_map _ _ hnd hfl hsum
  · exact fun b _ => releaseSum_nonneg hfl b.id

/-- Witness for C9: on a state with a synthetic outstanding loan of
quantity 2 on book 1, a synthetic returned loan on book 2 and a normal
loan, deletion maps each book's `lend_amount` down by exactly the
outstanding synthetic quantity it carried. -/
theorem c9_witness :
    (delete_super_admin_data batchState 9).1.books = batchState.books.map (fun b =>
      { b with lend_amount := b.lend_amount
          - releaseSum (batchState.lends.filter (syntheticLend 9)) b.id }) :=
  (c9_batch_delete_reverses_synthetic batchState 9
    (by decide) (by decide) (by decide)).2.2.1

/-- C10 (confirmed).  The dashboard's total-available figure sums
`amount - lend_amount` over non-deleted books with no per-book clamping, so
it never exceeds the sum of the clamped `available_amount()` values, and is
strictly below it whenever some non-deleted book has
`lend_amount > amount`. -/
theorem c10_unclamped_inventory_total (s : LibState) :
    book_inventory_total s ≤ available_amount_total s ∧
    ((∃ b ∈ s.books, b.is_deleted = false ∧ b.amount < b.lend_amount) →
      book_inventory_total s < available_amount_total s) := by
  constructor
  · unfold book_inventory_total available_amount_total
    apply sum_le_sum_books
    intro b _
    unfold available_amount
    exact le_max_left _ _
  · rintro ⟨b, hb, hdel, hlt⟩
    unfold book_inventory_total available_amount_total
    have hbf : b ∈ s.books.filter (fun b => !b.is_deleted) :=
      List.mem_filter.mpr ⟨hb, by simp [hdel]⟩
    refine sum_lt_sum_of_mem ?_ hbf ?_
    · intro x _
      unfold available_amount
      exact le_max_left _ _
    · unfold available_amount
      exact lt_of_lt_of_le (by omega) (le_max_right _ _)

/-- Witness for C10: with a non-deleted book at `amount = 1`,
`lend_amount = 3`, the dashboard total is strictly below the clamped sum. -/
theorem c10_witness :
    book_inventory_total overdrawnState < available_amount_total overdrawnState :=
  (c10_unclamped_inventory_total overdrawnState).2 (by decide)

end Library

